import Mathlib

/-!
Verification of the keyword-spotting transcription batch script.

The script has three parts that the claims talk about:

* `get_keywords` builds a stimulus-to-keywords dictionary from a csv
  table, inheriting keywords for rows that omit them via an exact
  substring scan over the already-indexed entries;
* `transcribe` extracts one transcription record from the speech
  service response (only the network call is external; the response
  handling is pure and is what we embed);
* the `__main__` driver iterates the csv rows, resolves the audio path,
  looks up the keywords and appends one output row per input row.

Rows of the csv table are embedded as association lists from column
name to string value, exactly the shape `csv.DictReader` produces; a
missing column is a missing key, and a Python `KeyError` or
`IndexError`/`ValueError` is `none` in the embedding.  Python dicts
keep insertion order, so the keyword index is an association list as
well, with new keys appended at the end.
-/

namespace KwsWatson

/-- One csv row: column name to field value, in header order. -/
abbrev Row := List (String × String)

/-- The keyword index built by `get_keywords`: stimulus id to keyword list,
in insertion order. -/
abbrev KWIndex := List (String × List String)

/-- Python dict subscript `d[k]` and `k in d`: first entry with the key.
`none` is a `KeyError`. -/
def alookup {α : Type} : List (String × α) → String → Option α
  | [], _ => none
  | p :: ps, k => if p.1 = k then some p.2 else alookup ps k

/-- Field access `row[k]` on a `csv.DictReader` row. -/
def getField (r : Row) (k : String) : Option String :=
  alookup r k

/-- Is `pre` a prefix of `l` (character lists). -/
def startsWithL : List Char → List Char → Bool
  | [], _ => true
  | _ :: _, [] => false
  | a :: as, b :: bs => a == b && startsWithL as bs

/-- Does `l` contain `needle` as a contiguous sublist. -/
def substrL (needle : List Char) : List Char → Bool
  | [] => startsWithL needle []
  | c :: cs => startsWithL needle (c :: cs) || substrL needle cs

/-- Python string containment `needle in hay` (exact substring, the empty
string is a substring of everything). -/
def isSubstr (needle hay : String) : Bool :=
  substrL needle.toList hay.toList

/-- The truthiness test and the two list subscripts in
`keywords[img][0] in row['img'] or keywords[img][1] in row['img']`,
with the Python short-circuit: the second subscript is evaluated only
when the first substring test fails.  `none` is an `IndexError`. -/
def entryMatches (e : List String) (img : String) : Option Bool :=
  match e.get? 0 with
  | none => none
  | some a =>
    if isSubstr a img then some true
    else
      match e.get? 1 with
      | none => none
      | some b => some (isSubstr b img)

/-- The `for img in keywords` scan of `get_keywords`: return the first
already-indexed entry one of whose keywords is a substring of `img`,
or `[]` (the initial value of `same`) when none matches. -/
def findMatch (img : String) : KWIndex → Option (List String)
  | [] => some []
  | (_, e) :: rest =>
    match entryMatches e img with
    | none => none
    | some true => some e
    | some false => findMatch img rest

/-- The row loop of `get_keywords`, lines 49-60: `acc` is the dictionary
built so far (`keywords`), in insertion order. -/
def buildIndexGo (acc : KWIndex) : List Row → Option KWIndex
  | [] => some acc
  | r :: rs =>
    match getField r "img" with
    | none => none
    | some img =>
      if (alookup acc img).isSome then
        buildIndexGo acc rs
      else
        match getField r "secondary" with
        | none => none
        | some sec =>
          if sec ≠ "" then
            match getField r "dominant" with
            | none => none
            | some dom => buildIndexGo (acc ++ [(img, [dom, sec])]) rs
          else
            match findMatch img acc with
            | none => none
            | some same =>
              if same.isEmpty then
                buildIndexGo acc rs
              else
                match same.get? 0, same.get? 1 with
                | some a, some b => buildIndexGo (acc ++ [(img, [a, b])]) rs
                | _, _ => none

/-- Embedding of `get_keywords` (the csv file is already parsed into its
row list). -/
def get_keywords (rows : List Row) : Option KWIndex :=
  buildIndexGo [] rows

/-- A scalar value in the service response json: either a string or a
number (word timings and confidences). -/
inductive Val where
  | str : String → Val
  | num : Rat → Val
deriving DecidableEq

/-- One keyword spot entry from the keyword-spot mapping, with the four
fields the script extracts.  The sentinel record reuses this shape with
all four fields set to the blank string. -/
structure Spot where
  normalized_text : Val
  start_time : Val
  confidence : Val
  end_time : Val
deriving DecidableEq

/-- The all-blank sentinel record of line 109. -/
def sentinel : Spot :=
  ⟨Val.str "", Val.str "", Val.str "", Val.str ""⟩

/-- One generic alternative transcription in a result segment (the
script never reads these). -/
structure Alternative where
  transcript : String
  confidence : Val
deriving DecidableEq

/-- One result segment of the service response: the optional
keyword-spot mapping (a json object, hence an association list in
insertion order) and the generic alternatives. -/
structure Segment where
  keywords_result : Option (List (String × List Spot))
  alternatives : List Alternative
deriving DecidableEq

/-- Response handling of `transcribe`, lines 106-109.  The network call
itself is external; `results` is the `'results'` list of the response.
`none` is the `IndexError` raised when the first key maps to an empty
spot list. -/
def transcribe (results : List Segment) : Option Spot :=
  match results with
  | [] => some sentinel
  | seg :: _ =>
    match seg.keywords_result with
    | none => some sentinel
    | some kr =>
      match kr with
      | [] => some sentinel
      | (key, _) :: _ =>
        match alookup kr key with
        | none => none
        | some spots => spots.get? 0

/-- Column values of a row, in header order (`list(row.values())`). -/
def rowValues (r : Row) : List String :=
  r.map (fun p => p.2)

/-- Values of the transcription record, in field order
(`list(transcript.values())`). -/
def spotValues (t : Spot) : List Val :=
  [t.normalized_text, t.start_time, t.confidence, t.end_time]

/-- One output row of the driver, line 138: the original column values
followed by the four transcription fields. -/
def outputRow (r : Row) (t : Spot) : List Val :=
  (rowValues r).map Val.str ++ spotValues t

/-- The output header, line 122: the input field names followed by the
four new column names. -/
def outputHeader (fieldnames : List String) : List String :=
  fieldnames ++ ["kws_word", "kws_start_t", "kws_conf", "kws_end_t"]

/-- Embedding of `os.path.join` on the driver's path pieces. -/
def joinPath (parts : List String) : String :=
  String.intercalate "/" parts

/-- Split a character list at every '/', keeping empty pieces, like the
Python `str.split('/')`: the first argument accumulates the current
piece in reverse. -/
def splitSlashAux : List Char → List Char → List (List Char)
  | [], cur => [cur.reverse]
  | c :: cs, cur =>
    if c == '/' then cur.reverse :: splitSlashAux cs []
    else splitSlashAux cs (c :: cur)

/-- Embedding of the Python `audio_path.split('/')`. -/
def splitSlash (s : String) : List String :=
  (splitSlashAux s.toList []).map String.mk

/-- The driver loop, lines 125-138.  The speech service is abstracted as
`svc`, mapping an audio path and a keyword list to the transcription
record; everything else follows the source: take the last three
'/'-separated segments of `audio_path` (a `ValueError` when there are
fewer than three), re-join them under `dataPath`, look up the keywords
for the row's `img` (a `KeyError` when absent) and emit one output row
per input row. -/
def driverLoop (svc : String → List String → Spot) (dataPath : String)
    (keywords : KWIndex) : List Row → Option (List (List Val))
  | [] => some []
  | r :: rs =>
    match getField r "audio_path" with
    | none => none
    | some ap =>
      match (splitSlash ap).drop ((splitSlash ap).length - 3) with
      | [p1, p2, p3] =>
        match getField r "img" with
        | none => none
        | some img =>
          match alookup keywords img with
          | none => none
          | some entry =>
            match driverLoop svc dataPath keywords rs with
            | none => none
            | some rest =>
              some (outputRow r (svc (joinPath [dataPath, p1, p2, p3]) entry) :: rest)
      | _ => none

/-- Specification-side helper: the keyword pair of the first row whose
`img` field equals the given stimulus id, taken from that row itself. -/
def firstExplicitPair (img : String) : List Row → Option (List String)
  | [] => none
  | r :: rs =>
    if getField r "img" = some img then
      match getField r "dominant", getField r "secondary" with
      | some d, some s => some [d, s]
      | _, _ => none
    else firstExplicitPair img rs

/-- Take the first option when present, the second otherwise. -/
def orDefault {α : Type} (x y : Option α) : Option α :=
  match x with
  | some e => some e
  | none => y

/-- An explicit metadata row: stimulus `A` with keywords wolf/wolves. -/
def rowA : Row :=
  [("img", "A"), ("audio_path", "x/y/z"), ("dominant", "wolf"), ("secondary", "wolves")]

/-- An implicit metadata row: the given stimulus id with blank keyword
fields. -/
def rowImplicit (img : String) : Row :=
  [("img", img), ("audio_path", "x/y/w"), ("dominant", ""), ("secondary", "")]

/-- A concrete keyword spot entry. -/
def spotWolf : Spot :=
  ⟨Val.str "wolf", Val.num 2, Val.num (3 / 100), Val.num (211 / 100)⟩

/-- A concrete generic alternative. -/
def altWell : Alternative :=
  ⟨"well", Val.num (57 / 100)⟩

/-- A concrete result segment with one spotted keyword and one generic
alternative. -/
def segWolf : Segment :=
  ⟨some [("wolf", [spotWolf])], [altWell]⟩

/-- Looking up a key that no entry carries fails. -/
theorem alookup_eq_none_of_forall_ne {α : Type} (l : List (String × α)) (k : String)
    (h : ∀ p ∈ l, p.1 ≠ k) : alookup l k = none := by
  induction l with
  | nil => rfl
  | cons p ps ih =>
    have hp : p.1 ≠ k := h p (by simp)
    simp only [alookup, if_neg hp]
    exact ih fun q hq => h q (by simp [hq])

/-- Appending a fresh entry changes a lookup only at the new key. -/
theorem alookup_append_single {α : Type} (l : List (String × α)) (i : String) (e : α)
    (k : String) :
    alookup (l ++ [(i, e)]) k =
      orDefault (alookup l k) (if i = k then some e else none) := by
  induction l with
  | nil => simp [alookup, orDefault]
  | cons p ps ih =>
    by_cases hp : p.1 = k
    · simp [alookup, hp, orDefault]
    · simp only [List.cons_append, alookup, if_neg hp]
      exact ih

/-- C1: `transcribe` examines only the first result segment.  When the
segment list is non-empty and the first segment carries a present,
non-empty keyword-spot mapping, it returns the first spot entry of the
first key of the mapping; when the mapping is absent or empty, or when
there are no result segments at all, it returns the all-blank sentinel
record, whatever the generic alternatives of the segments are. -/
theorem transcribe_first_segment_only (results : List Segment) :
    (results = [] → transcribe results = some sentinel) ∧
    (∀ seg rest, results = seg :: rest → seg.keywords_result = none →
      transcribe results = some sentinel) ∧
    (∀ seg rest, results = seg :: rest → seg.keywords_result = some [] →
      transcribe results = some sentinel) ∧
    (∀ seg rest key s ss kr, results = seg :: rest →
      seg.keywords_result = some ((key, s :: ss) :: kr) →
      transcribe results = some s) ∧
    (∀ seg rest1 rest2, transcribe (seg :: rest1) = transcribe (seg :: rest2)) := by
  refine ⟨?_, ?_, ?_, ?_, ?_⟩
  · rintro rfl; rfl
  · rintro seg rest rfl h; simp [transcribe, h]
  · rintro seg rest rfl h; simp [transcribe, h]
  · rintro seg rest key s ss kr rfl h
    simp [transcribe, h, alookup]
  · intro seg rest1 rest2; rfl

/-- Witness for C1 at a concrete response with one spotted keyword and a
generic alternative, and at the empty response. -/
theorem transcribe_first_segment_only_witness :
    ([segWolf] : List Segment) = segWolf :: [] ∧
    segWolf.keywords_result = some (("wolf", spotWolf :: []) :: []) ∧
    transcribe [segWolf] = some spotWolf ∧
    transcribe [] = some sentinel :=
  ⟨rfl, rfl,
    (transcribe_first_segment_only [segWolf]).2.2.2.1 segWolf [] "wolf" spotWolf [] []
      rfl rfl,
    (transcribe_first_segment_only []).1 rfl⟩

/-- C3: the index builder walks rows in table order; a row whose `img`
is already a key is skipped entirely (first occurrence wins), and a
fresh row with a non-empty `secondary` field stores the pair
`[dominant, secondary]` taken from that row itself, appended at the end
of the index. -/
theorem buildIndex_skip_or_explicit (acc : KWIndex) (r : Row) (rs : List Row)
    (img : String) (himg : getField r "img" = some img) :
    ((alookup acc img).isSome = true →
      buildIndexGo acc (r :: rs) = buildIndexGo acc rs) ∧
    (∀ s d, alookup acc img = none → getField r "secondary" = some s → s ≠ "" →
      getField r "dominant" = some d →
      buildIndexGo acc (r :: rs) = buildIndexGo (acc ++ [(img, [d, s])]) rs) := by
  constructor
  · intro h
    simp [buildIndexGo, himg, h]
  · intro s d hnone hsec hs hdom
    simp [buildIndexGo, himg, hnone, hsec, hs, hdom]

/-- Witness for C3: the duplicate second row of a table is skipped, and
an explicit row is stored from its own fields. -/
theorem buildIndex_skip_or_explicit_witness :
    getField rowA "img" = some "A" ∧
    (alookup [("A", ["wolf", "wolves"])] "A").isSome = true ∧
    buildIndexGo [("A", ["wolf", "wolves"])] (rowA :: []) =
      buildIndexGo [("A", ["wolf", "wolves"])] [] ∧
    alookup ([] : KWIndex) "A" = none ∧
    buildIndexGo [] (rowA :: []) = buildIndexGo [("A", ["wolf", "wolves"])] [] :=
  ⟨rfl, rfl,
    (buildIndex_skip_or_explicit [("A", ["wolf", "wolves"])] rowA [] "A" rfl).1 rfl,
    rfl,
    (buildIndex_skip_or_explicit [] rowA [] "A" rfl).2 "wolves" "wolf" rfl rfl
      (by decide) rfl⟩

/-- The match scan stops at the first entry that matches, skipping the
entries before it. -/
theorem findMatch_append_found (img : String) (pre : KWIndex) (k : String)
    (e : List String) (post : KWIndex)
    (hpre : ∀ p ∈ pre, entryMatches p.2 img = some false)
    (hmatch : entryMatches e img = some true) :
    findMatch img (pre ++ (k, e) :: post) = some e := by
  induction pre with
  | nil => simp [findMatch, hmatch]
  | cons p ps ih =>
    have hp := hpre p (by simp)
    rcases p with ⟨k0, e0⟩
    simp only [List.cons_append, findMatch, hp]
    exact ih fun q hq => hpre q (by simp [hq])

/-- C2: for a fresh row with a blank `secondary` field, the builder
scans the already-indexed entries in insertion order and, at the first
entry one of whose two keywords is an exact substring of the current
`img`, appends a verbatim copy of that entry under the current `img`. -/
theorem buildIndex_inherit_first_match (pre post : KWIndex) (k a b : String)
    (r : Row) (rs : List Row) (img : String)
    (himg : getField r "img" = some img)
    (hnotin : alookup (pre ++ (k, [a, b]) :: post) img = none)
    (hsec : getField r "secondary" = some "")
    (hpre : ∀ p ∈ pre, entryMatches p.2 img = some false)
    (hmatch : entryMatches [a, b] img = some true) :
    buildIndexGo (pre ++ (k, [a, b]) :: post) (r :: rs) =
      buildIndexGo ((pre ++ (k, [a, b]) :: post) ++ [(img, [a, b])]) rs := by
  have hfind := findMatch_append_found img pre k [a, b] post hpre hmatch
  simp [buildIndexGo, himg, hnotin, hsec, hfind]

/-- Witness for C2: a row for stimulus `thewolf2` with blank keyword
fields inherits the wolf/wolves entry because `wolf` occurs inside
`thewolf2`. -/
theorem buildIndex_inherit_first_match_witness :
    getField (rowImplicit "thewolf2") "img" = some "thewolf2" ∧
    alookup ([] ++ ("A", ["wolf", "wolves"]) :: []) "thewolf2" = none ∧
    getField (rowImplicit "thewolf2") "secondary" = some "" ∧
    entryMatches ["wolf", "wolves"] "thewolf2" = some true ∧
    buildIndexGo ([] ++ ("A", ["wolf", "wolves"]) :: []) (rowImplicit "thewolf2" :: []) =
      buildIndexGo (([] ++ ("A", ["wolf", "wolves"]) :: []) ++
        [("thewolf2", ["wolf", "wolves"])]) [] :=
  ⟨rfl, rfl, rfl, by decide,
    buildIndex_inherit_first_match [] [] "A" "wolf" "wolves" (rowImplicit "thewolf2") []
      "thewolf2" rfl rfl rfl (by simp) (by decide)⟩

/-- When no already-indexed entry matches, the scan ends with the empty
list, the initial value of `same`. -/
theorem findMatch_eq_nil (img : String) (acc : KWIndex)
    (h : ∀ p ∈ acc, entryMatches p.2 img = some false) :
    findMatch img acc = some [] := by
  induction acc with
  | nil => rfl
  | cons p ps ih =>
    have hp := h p (by simp)
    rcases p with ⟨k0, e0⟩
    simp only [findMatch, hp]
    exact ih fun q hq => h q (by simp [hq])

/-- C4: a fresh row with a blank `secondary` field and no matching
already-indexed entry creates no entry at all, and looking up a key
that the index does not hold fails with `none` (the `KeyError` of the
driver) instead of producing an empty entry. -/
theorem buildIndex_unmatched_left_absent (acc : KWIndex) (r : Row) (rs : List Row)
    (img : String) (himg : getField r "img" = some img)
    (hnotin : alookup acc img = none)
    (hsec : getField r "secondary" = some "")
    (hnom : ∀ p ∈ acc, entryMatches p.2 img = some false) :
    buildIndexGo acc (r :: rs) = buildIndexGo acc rs ∧
    ∀ idx : KWIndex, (∀ p ∈ idx, p.1 ≠ img) → alookup idx img = none := by
  constructor
  · have hfind := findMatch_eq_nil img acc hnom
    simp [buildIndexGo, himg, hnotin, hsec, hfind]
  · intro idx hidx
    exact alookup_eq_none_of_forall_ne idx img hidx

/-- Witness for C4: a row for stimulus `B7` with blank keyword fields
matches nothing in the wolf/wolves index and stays absent, and the
lookup for it fails. -/
theorem buildIndex_unmatched_left_absent_witness :
    getField (rowImplicit "B7") "img" = some "B7" ∧
    alookup [("A", ["wolf", "wolves"])] "B7" = none ∧
    getField (rowImplicit "B7") "secondary" = some "" ∧
    entryMatches ["wolf", "wolves"] "B7" = some false ∧
    (buildIndexGo [("A", ["wolf", "wolves"])] (rowImplicit "B7" :: []) =
        buildIndexGo [("A", ["wolf", "wolves"])] [] ∧
      ∀ idx : KWIndex, (∀ p ∈ idx, p.1 ≠ "B7") → alookup idx "B7" = none) :=
  ⟨rfl, rfl, rfl, by decide,
    buildIndex_unmatched_left_absent [("A", ["wolf", "wolves"])] (rowImplicit "B7") []
      "B7" rfl rfl rfl (by intro p hp; simp at hp; rw [hp]; decide)⟩

/-- On a table all of whose rows carry explicit non-empty keyword
fields, the builder succeeds from any starting index, and a lookup in
the result falls back from the starting index to the pair of the first
row carrying the looked-up id. -/
theorem buildIndexGo_all_explicit (rows : List Row)
    (hrows : ∀ r ∈ rows, (∃ i, getField r "img" = some i) ∧
      (∃ d, getField r "dominant" = some d ∧ d ≠ "") ∧
      (∃ s, getField r "secondary" = some s ∧ s ≠ "")) :
    ∀ acc : KWIndex, ∃ idx, buildIndexGo acc rows = some idx ∧
      ∀ img, alookup idx img =
        orDefault (alookup acc img) (firstExplicitPair img rows) := by
  induction rows with
  | nil =>
    intro acc
    refine ⟨acc, rfl, fun img => ?_⟩
    cases alookup acc img <;> simp [firstExplicitPair, orDefault]
  | cons r rs ih =>
    intro acc
    obtain ⟨⟨i, hi⟩, ⟨d, hd, hd0⟩, ⟨s, hs, hs0⟩⟩ := hrows r (by simp)
    have hrs : ∀ r0 ∈ rs, (∃ i0, getField r0 "img" = some i0) ∧
        (∃ d0, getField r0 "dominant" = some d0 ∧ d0 ≠ "") ∧
        (∃ s0, getField r0 "secondary" = some s0 ∧ s0 ≠ "") :=
      fun r0 h0 => hrows r0 (by simp [h0])
    by_cases hmem : (alookup acc i).isSome
    · obtain ⟨idx, hrun, hlook⟩ := ih hrs acc
      refine ⟨idx, by simp [buildIndexGo, hi, hmem, hrun], fun img => ?_⟩
      rw [hlook img]
      by_cases himg : i = img
      · subst himg
        obtain ⟨e, he⟩ := Option.isSome_iff_exists.mp hmem
        simp [he, orDefault]
      · have hcond : ¬ (getField r "img" = some img) := by
          rw [hi]; simp [himg]
        simp [firstExplicitPair, hcond]
    · have hnone : alookup acc i = none := Option.not_isSome_iff_eq_none.mp hmem
      obtain ⟨idx, hrun, hlook⟩ := ih hrs (acc ++ [(i, [d, s])])
      have hstep : buildIndexGo acc (r :: rs) = some idx := by
        simp [buildIndexGo, hi, hnone, hs, hs0, hd, hrun]
      refine ⟨idx, hstep, fun img => ?_⟩
      rw [hlook img, alookup_append_single]
      by_cases himg : i = img
      · subst himg
        have hfep : firstExplicitPair i (r :: rs) = some [d, s] := by
          simp [firstExplicitPair, hi, hd, hs]
        simp [hnone, hfep, orDefault]
      · have hcond : ¬ (getField r "img" = some img) := by
          rw [hi]; simp [himg]
        have hfep : firstExplicitPair img (r :: rs) = firstExplicitPair img rs := by
          simp [firstExplicitPair, hcond]
        rw [hfep, if_neg himg]
        cases alookup acc img <;> simp [orDefault]

/-- C6: on a table all of whose rows carry explicit non-empty
`dominant` and `secondary` fields, `get_keywords` succeeds and maps
every stimulus id exactly to the explicit pair of its own first row,
with nothing inherited across rows. -/
theorem get_keywords_all_explicit (rows : List Row)
    (hrows : ∀ r ∈ rows, (∃ i, getField r "img" = some i) ∧
      (∃ d, getField r "dominant" = some d ∧ d ≠ "") ∧
      (∃ s, getField r "secondary" = some s ∧ s ≠ "")) :
    ∃ idx, get_keywords rows = some idx ∧
      ∀ img, alookup idx img = firstExplicitPair img rows := by
  obtain ⟨idx, hrun, hlook⟩ := buildIndexGo_all_explicit rows hrows []
  refine ⟨idx, hrun, fun img => ?_⟩
  rw [hlook img]
  simp [alookup, orDefault]

/-- Witness for C6 on a two-row explicit table. -/
theorem get_keywords_all_explicit_witness :
    (∀ r ∈ [rowA, [("img", "B"), ("audio_path", "u/v/w"), ("dominant", "cat"),
        ("secondary", "kitten")]],
      (∃ i, getField r "img" = some i) ∧
      (∃ d, getField r "dominant" = some d ∧ d ≠ "") ∧
      (∃ s, getField r "secondary" = some s ∧ s ≠ "")) ∧
    ∃ idx, get_keywords [rowA, [("img", "B"), ("audio_path", "u/v/w"),
        ("dominant", "cat"), ("secondary", "kitten")]] = some idx ∧
      ∀ img, alookup idx img =
        firstExplicitPair img [rowA, [("img", "B"), ("audio_path", "u/v/w"),
          ("dominant", "cat"), ("secondary", "kitten")]] := by
  have hrows : ∀ r ∈ [rowA, [("img", "B"), ("audio_path", "u/v/w"), ("dominant", "cat"),
      ("secondary", "kitten")]],
      (∃ i, getField r "img" = some i) ∧
      (∃ d, getField r "dominant" = some d ∧ d ≠ "") ∧
      (∃ s, getField r "secondary" = some s ∧ s ≠ "") := by
    intro r hr
    simp only [List.mem_cons, List.not_mem_nil, or_false] at hr
    rcases hr with rfl | rfl
    · exact ⟨⟨"A", rfl⟩, ⟨"wolf", rfl, by decide⟩, ⟨"wolves", rfl, by decide⟩⟩
    · exact ⟨⟨"B", rfl⟩, ⟨"cat", rfl, by decide⟩, ⟨"kitten", rfl, by decide⟩⟩
  exact ⟨hrows, get_keywords_all_explicit _ hrows⟩

/-- C7 counterexample: on the table `rowA` followed by the implicit row
`A_trial2`, the id `A` is a substring of `A_trial2` and the scan
reaches the single entry `A`, yet the built index does not map
`A_trial2` at all — the scan tests the keywords `wolf`/`wolves` against
the id, not the indexed id `A`, so the claimed iff fails at this
input. -/
theorem get_keywords_id_substring_refuted :
    isSubstr "A" "A_trial2" = true ∧
    entryMatches ["wolf", "wolves"] "A_trial2" = some false ∧
    get_keywords [rowA, rowImplicit "A_trial2"] = some [("A", ["wolf", "wolves"])] ∧
    alookup [("A", ["wolf", "wolves"])] "A_trial2" = none := by
  refine ⟨by decide, by decide, ?_, by decide⟩
  decide

/-- C7 amended: on the table `rowA` followed by an implicit row for a
stimulus `X`, the built index maps `X` to the wolf/wolves pair exactly
when one of the keywords `wolf` or `wolves` is an exact substring of
`X` (the scan reaches the single entry in every case; whether the
indexed id `A` occurs inside `X` is irrelevant). -/
theorem get_keywords_keyword_substring_semantics (X : String) (hne : X ≠ "A") :
    ∃ idx, get_keywords [rowA, rowImplicit X] = some idx ∧
      (alookup idx X = some ["wolf", "wolves"] ↔
        (isSubstr "wolf" X = true ∨ isSubstr "wolves" X = true)) := by
  have hne' : ¬ ("A" = X) := fun h => hne h.symm
  have h1 : getField (rowImplicit X) "img" = some X := rfl
  have h2 : getField (rowImplicit X) "secondary" = some "" := rfl
  have hstep1 : buildIndexGo [] [rowA, rowImplicit X] =
      buildIndexGo [("A", ["wolf", "wolves"])] [rowImplicit X] := rfl
  have halo : alookup [("A", ["wolf", "wolves"])] X = none := by
    simp [alookup, hne']
  by_cases hw : isSubstr "wolf" X = true
  · refine ⟨[("A", ["wolf", "wolves"]), (X, ["wolf", "wolves"])], ?_, ?_⟩
    · rw [get_keywords, hstep1]
      simp [buildIndexGo, h1, h2, halo, findMatch, entryMatches, hw]
    · simp [alookup, hne', hw]
  · by_cases hv : isSubstr "wolves" X = true
    · refine ⟨[("A", ["wolf", "wolves"]), (X, ["wolf", "wolves"])], ?_, ?_⟩
      · rw [get_keywords, hstep1]
        simp [buildIndexGo, h1, h2, halo, findMatch, entryMatches, hw, hv]
      · simp [alookup, hne', hv]
    · refine ⟨[("A", ["wolf", "wolves"])], ?_, ?_⟩
      · rw [get_keywords, hstep1]
        simp [buildIndexGo, h1, h2, halo, findMatch, entryMatches, hw, hv]
      · simp [alookup, hne', hw, hv]

/-- Witness for the amended C7 at `X = A_trial2`: neither keyword
occurs inside `A_trial2`, so the iff makes both sides false and the
stimulus stays unmapped. -/
theorem get_keywords_keyword_substring_semantics_witness :
    ("A_trial2" : String) ≠ "A" ∧
    ∃ idx, get_keywords [rowA, rowImplicit "A_trial2"] = some idx ∧
      (alookup idx "A_trial2" = some ["wolf", "wolves"] ↔
        (isSubstr "wolf" "A_trial2" = true ∨ isSubstr "wolves" "A_trial2" = true)) :=
  ⟨by decide, get_keywords_keyword_substring_semantics "A_trial2" (by decide)⟩

/-- C8 counterexample: a one-row table with the required `img` and
`audio_path` columns but without the `dominant` and `secondary` columns
makes `get_keywords` fail with a missing-key error (`none`) instead of
completing with a mapping. -/
theorem get_keywords_optional_columns_refuted :
    getField [("img", "cat.jpg"), ("audio_path", "a/b/c")] "img" = some "cat.jpg" ∧
    getField [("img", "cat.jpg"), ("audio_path", "a/b/c")] "audio_path" = some "a/b/c" ∧
    getField [("img", "cat.jpg"), ("audio_path", "a/b/c")] "dominant" = none ∧
    getField [("img", "cat.jpg"), ("audio_path", "a/b/c")] "secondary" = none ∧
    get_keywords [[("img", "cat.jpg"), ("audio_path", "a/b/c")]] = none :=
  ⟨rfl, rfl, rfl, rfl, rfl⟩

/-- C8 amended: on a table whose rows lack the `secondary` column, the
per-row access to that field fails on the very first row, so
`get_keywords` fails with a missing-key error whenever the table is
non-empty (it completes only on the empty table). -/
theorem get_keywords_missing_secondary_errors (r : Row) (rs : List Row) (img : String)
    (himg : getField r "img" = some img)
    (hsec : getField r "secondary" = none) :
    get_keywords (r :: rs) = none := by
  simp [get_keywords, buildIndexGo, himg, hsec, alookup]

/-- Witness for the amended C8 at a concrete one-row table. -/
theorem get_keywords_missing_secondary_errors_witness :
    getField [("img", "dog.jpg"), ("audio_path", "d/e/f")] "img" = some "dog.jpg" ∧
    getField [("img", "dog.jpg"), ("audio_path", "d/e/f")] "secondary" = none ∧
    get_keywords [[("img", "dog.jpg"), ("audio_path", "d/e/f")]] = none :=
  ⟨rfl, rfl,
    get_keywords_missing_secondary_errors [("img", "dog.jpg"), ("audio_path", "d/e/f")]
      [] "dog.jpg" rfl rfl⟩

/-- A failure anywhere in the remaining rows makes the whole driver run
fail. -/
theorem driverLoop_cons_none (svc : String → List String → Spot) (dataPath : String)
    (keywords : KWIndex) (h : Row) (t : List Row)
    (hnone : driverLoop svc dataPath keywords t = none) :
    driverLoop svc dataPath keywords (h :: t) = none := by
  simp only [driverLoop, hnone]
  repeat' first | rfl | split

/-- C9: a metadata row whose `audio_path` splits into fewer than three
'/'-separated segments makes the three-way destructuring fail, and the
error is uncaught: the whole driver run over any row list containing
such a row produces no output. -/
theorem driver_malformed_path (svc : String → List String → Spot) (dataPath : String)
    (keywords : KWIndex) (rows : List Row) (r : Row) (ap : String)
    (hmem : r ∈ rows) (hap : getField r "audio_path" = some ap)
    (hlen : (splitSlash ap).length < 3) :
    driverLoop svc dataPath keywords rows = none := by
  induction rows with
  | nil => cases hmem
  | cons h t ih =>
    rcases List.mem_cons.mp hmem with rfl | hmem'
    · simp only [driverLoop, hap]
      cases hsplit : splitSlash ap with
      | nil => simp [hsplit]
      | cons a l1 =>
        cases l1 with
        | nil => simp [hsplit]
        | cons b l2 =>
          cases l2 with
          | nil => simp [hsplit]
          | cons c l3 =>
            rw [hsplit] at hlen
            simp at hlen
            omega
    · exact driverLoop_cons_none svc dataPath keywords h t (ih hmem')

/-- Witness for C9: an `audio_path` with only two segments aborts a
two-row batch. -/
theorem driver_malformed_path_witness :
    ([("img", "A"), ("audio_path", "a/b")] : Row) ∈
      [[("img", "A"), ("audio_path", "a/b")], rowA] ∧
    getField [("img", "A"), ("audio_path", "a/b")] "audio_path" = some "a/b" ∧
    (splitSlash "a/b").length < 3 ∧
    driverLoop (fun _ _ => sentinel) "d" [("A", ["wolf", "wolves"])]
      [[("img", "A"), ("audio_path", "a/b")], rowA] = none :=
  ⟨by simp, rfl, by decide,
    driver_malformed_path (fun _ _ => sentinel) "d" [("A", ["wolf", "wolves"])]
      [[("img", "A"), ("audio_path", "a/b")], rowA] [("img", "A"), ("audio_path", "a/b")]
      "a/b" (by simp) rfl (by decide)⟩

/-- A successful driver run emits one output row per input row, in
order, each made of the input row values followed by some transcription
record. -/
theorem driverLoop_shape (svc : String → List String → Spot) (dataPath : String)
    (keywords : KWIndex) (rows : List Row) (out : List (List Val))
    (h : driverLoop svc dataPath keywords rows = some out) :
    out.length = rows.length ∧
    ∀ i (hi : i < out.length) (hr : i < rows.length),
      ∃ t : Spot, out.get ⟨i, hi⟩ =
        (rowValues (rows.get ⟨i, hr⟩)).map Val.str ++
          [t.normalized_text, t.start_time, t.confidence, t.end_time] := by
  induction rows generalizing out with
  | nil =>
    simp only [driverLoop, Option.some.injEq] at h
    subst h
    exact ⟨rfl, fun i hi hr => absurd hi (by simp)⟩
  | cons r rs ih =>
    simp only [driverLoop] at h
    split at h
    · exact absurd h (by simp)
    · rename_i ap hap
      split at h
      · rename_i p1 p2 p3 hsplit
        split at h
        · exact absurd h (by simp)
        · rename_i img himg
          split at h
          · exact absurd h (by simp)
          · rename_i entry hentry
            split at h
            · exact absurd h (by simp)
            · rename_i rest hrest
              obtain ⟨hlen, hidx⟩ := ih rest hrest
              obtain rfl : outputRow r (svc (joinPath [dataPath, p1, p2, p3]) entry)
                  :: rest = out := Option.some.injEq _ _ |>.mp h
              refine ⟨by simp [hlen], fun i hi hr => ?_⟩
              cases i with
              | zero =>
                exact ⟨svc (joinPath [dataPath, p1, p2, p3]) entry, rfl⟩
              | succ n =>
                exact hidx n (by simpa using hi) (by simpa using hr)
      · exact absurd h (by simp)

/-- C5: the output header is the input field names followed by exactly
the four new column names, and a successful driver run emits one output
row per input row in input order; every output row starts with the
corresponding input row values, unchanged and in order, followed by
exactly four transcription columns. -/
theorem driver_round_trip (svc : String → List String → Spot) (dataPath : String)
    (keywords : KWIndex) (rows : List Row) (out : List (List Val))
    (h : driverLoop svc dataPath keywords rows = some out) :
    (∀ fieldnames, outputHeader fieldnames =
      fieldnames ++ ["kws_word", "kws_start_t", "kws_conf", "kws_end_t"]) ∧
    out.length = rows.length ∧
    ∀ i (hi : i < out.length) (hr : i < rows.length),
      ∃ t : Spot, out.get ⟨i, hi⟩ =
        (rowValues (rows.get ⟨i, hr⟩)).map Val.str ++
          [t.normalized_text, t.start_time, t.confidence, t.end_time] :=
  ⟨fun _ => rfl, driverLoop_shape svc dataPath keywords rows out h⟩

/-- Witness for C5 on a one-row batch transcribed to the sentinel. -/
theorem driver_round_trip_witness :
    driverLoop (fun _ _ => sentinel) "d" [("A", ["w", "x"])]
      [[("img", "A"), ("audio_path", "q/a/b/c")]] =
      some [[Val.str "A", Val.str "q/a/b/c", Val.str "", Val.str "", Val.str "",
        Val.str ""]] ∧
    ([[Val.str "A", Val.str "q/a/b/c", Val.str "", Val.str "", Val.str "",
        Val.str ""]] : List (List Val)).length =
      ([[("img", "A"), ("audio_path", "q/a/b/c")]] : List Row).length :=
  ⟨rfl,
    (driver_round_trip (fun _ _ => sentinel) "d" [("A", ["w", "x"])]
      [[("img", "A"), ("audio_path", "q/a/b/c")]]
      [[Val.str "A", Val.str "q/a/b/c", Val.str "", Val.str "", Val.str "",
        Val.str ""]] rfl).2.1⟩

/-- The entry returned by the scan is the initial empty list or an
entry stored in the index. -/
theorem findMatch_mem (img : String) (acc : KWIndex) (same : List String)
    (h : findMatch img acc = some same) :
    same = [] ∨ ∃ k, (k, same) ∈ acc := by
  induction acc with
  | nil =>
    simp only [findMatch, Option.some.injEq] at h
    exact Or.inl h.symm
  | cons p ps ih =>
    rcases p with ⟨k0, e0⟩
    simp only [findMatch] at h
    split at h
    · exact absurd h (by simp)
    · simp only [Option.some.injEq] at h
      subst h
      exact Or.inr ⟨k0, by simp⟩
    · rcases ih h with h' | ⟨k, hk⟩
      · exact Or.inl h'
      · exact Or.inr ⟨k, by simp [hk]⟩

/-- C10: every entry of the keyword index is a list of exactly two
strings whose second string is non-empty, at every step of the
construction: if the accumulated index satisfies the invariant, so does
the index the builder returns — explicit entries by the non-empty
`secondary` guard, inherited entries because they copy both elements of
an entry already stored. -/
theorem buildIndex_entry_invariant (acc : KWIndex) (rows : List Row) (idx : KWIndex)
    (hacc : ∀ p ∈ acc, ∃ a b, p.2 = [a, b] ∧ b ≠ "")
    (hrun : buildIndexGo acc rows = some idx) :
    ∀ p ∈ idx, ∃ a b, p.2 = [a, b] ∧ b ≠ "" := by
  induction rows generalizing acc with
  | nil =>
    simp only [buildIndexGo, Option.some.injEq] at hrun
    subst hrun
    exact hacc
  | cons r rs ih =>
    simp only [buildIndexGo] at hrun
    split at hrun
    · exact absurd hrun (by simp)
    · rename_i img himg
      split at hrun
      · exact ih acc hacc hrun
      · split at hrun
        · exact absurd hrun (by simp)
        · rename_i sec hsec
          split at hrun
          · rename_i hne
            split at hrun
            · exact absurd hrun (by simp)
            · rename_i dom hdom
              refine ih (acc ++ [(img, [dom, sec])]) ?_ hrun
              intro p hp
              rcases List.mem_append.mp hp with hp' | hp'
              · exact hacc p hp'
              · simp only [List.mem_singleton] at hp'
                subst hp'
                exact ⟨dom, sec, rfl, hne⟩
          · split at hrun
            · exact absurd hrun (by simp)
            · rename_i same hfind
              split at hrun
              · exact ih acc hacc hrun
              · rename_i hnonempty
                rcases findMatch_mem img acc same hfind with rfl | ⟨k, hk⟩
                · exact absurd rfl hnonempty
                · obtain ⟨a', b', hsame, hb'⟩ := hacc (k, same) hk
                  simp only at hsame
                  subst hsame
                  simp only [List.get?] at hrun
                  refine ih (acc ++ [(img, [a', b'])]) ?_ hrun
                  intro p hp
                  rcases List.mem_append.mp hp with hp' | hp'
                  · exact hacc p hp'
                  · simp only [List.mem_singleton] at hp'
                    subst hp'
                    exact ⟨a', b', rfl, hb'⟩

/-- Witness for C10: starting from an index already holding one
well-formed entry, building over one explicit and one inherited row
keeps every entry a two-element list with non-empty second element. -/
theorem buildIndex_entry_invariant_witness :
    (∀ p ∈ [("Z", ["cat", "kitten"])], ∃ a b, p.2 = [a, b] ∧ b ≠ "") ∧
    buildIndexGo [("Z", ["cat", "kitten"])] [rowA, rowImplicit "thewolf2"] =
      some [("Z", ["cat", "kitten"]), ("A", ["wolf", "wolves"]),
        ("thewolf2", ["wolf", "wolves"])] ∧
    ∀ p ∈ [("Z", ["cat", "kitten"]), ("A", ["wolf", "wolves"]),
        ("thewolf2", ["wolf", "wolves"])], ∃ a b, p.2 = [a, b] ∧ b ≠ "" := by
  have hacc : ∀ p ∈ [("Z", ["cat", "kitten"])], ∃ a b, p.2 = [a, b] ∧ b ≠ "" := by
    intro p hp
    simp only [List.mem_singleton] at hp
    subst hp
    exact ⟨"cat", "kitten", rfl, by decide⟩
  refine ⟨hacc, by decide, ?_⟩
  exact buildIndex_entry_invariant [("Z", ["cat", "kitten"])]
    [rowA, rowImplicit "thewolf2"]
    [("Z", ["cat", "kitten"]), ("A", ["wolf", "wolves"]),
      ("thewolf2", ["wolf", "wolves"])] hacc (by decide)

end KwsWatson

